import Mathlib

/-!
Shallow embedding of the metric-accumulation and evaluation code of
`ocpmodels/modules/evaluator.py` and of
`src/fairchem/core/modules/normalizer.py`, with theorems checking the
natural-language specification against it.

Python numbers (ints and floats) are modelled as exact rationals `ℚ`;
division by zero in this model yields `0` (Lean's convention), and the
places where Python would instead raise are modelled with explicit error
values.  Python dictionaries with insertion order are modelled as
association lists.
-/

/-- Statistics value passed to `Evaluator.update`: a `{metric, total, numel}`
dictionary, a plain float/int, a torch tensor, or any other value (which the
Python code silently ignores after seeding the key). -/
inductive Stat where
  | sdict (metric total numel : ℚ)
  | scalar (x : ℚ)
  | stensor
  | other
deriving DecidableEq, Repr

/-- One record of a metrics table: the Python dict
`{"metric": ..., "total": ..., "numel": ...}`, where `metric` is `None`
until the first numeric update. -/
structure Record where
  metric : Option ℚ
  total : ℚ
  numel : ℚ
deriving DecidableEq, Repr

/-- A metrics table: a Python dict from metric name to record, as an
association list in insertion order. -/
abbrev Metrics := List (String × Record)

/-- Dictionary lookup on a metrics table. -/
def findRec : Metrics → String → Option Record
  | [], _ => none
  | (k, r) :: rest, key => if k = key then some r else findRec rest key

/-- Dictionary assignment `metrics[key] = r`: replaces the first binding of
`key`, or appends at the end when absent (Python insertion order). -/
def setRec : Metrics → String → Record → Metrics
  | [], key, r => [(key, r)]
  | (k, r') :: rest, key, r =>
      if k = key then (k, r) :: rest else (k, r') :: setRec rest key r

/-- Error raised (or not) by `Evaluator.update`: `NotImplementedError` on a
tensor stat, or Python's `ZeroDivisionError` from
`metrics[key]["metric"] = total / numel` when the accumulated `numel` is 0. -/
inductive UpdErr where
  | notImplemented
  | zeroDivision
deriving DecidableEq, Repr

/-- Result of `Evaluator.update`: the table after all in-place mutations that
happened, plus the exception raised, if any (the Python code mutates the dict
before it can raise, so the mutations survive the exception). -/
structure UpdOut where
  table : Metrics
  err : Option UpdErr
deriving DecidableEq

/-- The zero record `{"metric": None, "total": 0, "numel": 0}` seeded for a
key absent from the table. -/
def zeroRecord : Record := ⟨none, 0, 0⟩

/-- One successful numeric accumulation step on a record (the divisor is
nonzero): add the `(total, numel)` contribution of the stat and recompute
`metric = total / numel`.  Scalars contribute `(x, 1)`; dict stats
contribute their own `(total, numel)` (their `metric` field is ignored, as
in the source). -/
def stepRec (r : Record) (s : Stat) : Record :=
  match s with
  | .sdict _ t n => ⟨some ((r.total + t) / (r.numel + n)), r.total + t, r.numel + n⟩
  | .scalar x => ⟨some ((r.total + x) / (r.numel + 1)), r.total + x, r.numel + 1⟩
  | .stensor => r
  | .other => r

/-- Embedding of `Evaluator.update(key, stat, metrics)`: seed the zero record
when `key` is absent, then branch on the runtime type of `stat` — dict and
float/int accumulate `total` and `numel` in place and then recompute the mean,
raising `ZeroDivisionError` when the accumulated `numel` is 0 (the in-place
`total`/`numel` writes have already happened, so the table keeps them with
the stale metric); a tensor raises `NotImplementedError` (after the seeding
already mutated the table); anything else falls through silently. -/
def update (key : String) (stat : Stat) (m : Metrics) : UpdOut :=
  let m1 := if (findRec m key).isNone then setRec m key zeroRecord else m
  let r := (findRec m1 key).getD zeroRecord
  match stat with
  | .sdict mv t n =>
      if r.numel + n = 0 then
        ⟨setRec m1 key ⟨r.metric, r.total + t, r.numel + n⟩, some .zeroDivision⟩
      else ⟨setRec m1 key (stepRec r (.sdict mv t n)), none⟩
  | .scalar x =>
      if r.numel + 1 = 0 then
        ⟨setRec m1 key ⟨r.metric, r.total + x, r.numel + 1⟩, some .zeroDivision⟩
      else ⟨setRec m1 key (stepRec r (.scalar x)), none⟩
  | .stensor => ⟨m1, some .notImplemented⟩
  | .other => ⟨m1, none⟩

/-- Error-propagating fold of a sequence of stats into the table under one
metric name, one `Evaluator.update` per stat; the first exception aborts
the remaining updates, as a Python loop would. -/
def foldUpdE (key : String) (stats : List Stat) (m : Metrics) : Except UpdErr Metrics :=
  match stats with
  | [] => .ok m
  | s :: rest =>
      let u := update key s m
      match u.err with
      | some e => .error e
      | none => foldUpdE key rest u.table

/-- Whether a stat takes one of the two numeric branches of `update`. -/
def isNumeric : Stat → Bool
  | .sdict _ _ _ => true
  | .scalar _ => true
  | .stensor => false
  | .other => false

/-- Total contributed by one stat to the running `total`. -/
def statTotal : Stat → ℚ
  | .sdict _ t _ => t
  | .scalar x => x
  | .stensor => 0
  | .other => 0

/-- Count contributed by one stat to the running `numel`. -/
def statNumel : Stat → ℚ
  | .sdict _ _ n => n
  | .scalar _ => 1
  | .stensor => 0
  | .other => 0

/-- Pre-aggregated summary of a sub-group of stats: sum the totals, sum the
numels, and carry `total / numel` as the metric field of a dict stat. -/
def gsum (g : List Stat) : Stat :=
  .sdict ((g.map statTotal).sum / (g.map statNumel).sum)
    ((g.map statTotal).sum) ((g.map statNumel).sum)

/-- The record currently stored at `key`, or the zero record when absent:
the base the next update accumulates onto. -/
def baseRec (m : Metrics) (key : String) : Record :=
  (findRec m key).getD zeroRecord

theorem findRec_setRec_self (m : Metrics) (key : String) (r : Record) :
    findRec (setRec m key r) key = some r := by
  induction m with
  | nil => simp [setRec, findRec]
  | cons hd tl ih =>
      obtain ⟨k, r'⟩ := hd
      by_cases h : k = key
      · simp [setRec, findRec, h]
      · simp [setRec, findRec, h, ih]

theorem setRec_setRec_self (m : Metrics) (key : String) (r r' : Record) :
    setRec (setRec m key r) key r' = setRec m key r' := by
  induction m with
  | nil => simp [setRec]
  | cons hd tl ih =>
      obtain ⟨k, r0⟩ := hd
      by_cases h : k = key
      · simp [setRec, h]
      · simp [setRec, h, ih]

theorem stepRec_numel (r : Record) (s : Stat) (hs : isNumeric s = true) :
    (stepRec r s).numel = r.numel + statNumel s := by
  cases s with
  | sdict mv t n => rfl
  | scalar x => rfl
  | stensor => simp [isNumeric] at hs
  | other => simp [isNumeric] at hs

theorem update_numeric_nz (key : String) (s : Stat) (m : Metrics)
    (hs : isNumeric s = true)
    (hnz : (baseRec m key).numel + statNumel s ≠ 0) :
    update key s m = ⟨setRec m key (stepRec (baseRec m key) s), none⟩ := by
  cases s with
  | sdict mv t n =>
      simp only [baseRec, statNumel] at hnz
      cases h : findRec m key with
      | none =>
          rw [h] at hnz
          simp only [Option.getD_none, zeroRecord, zero_add] at hnz
          simp [update, h, findRec_setRec_self, setRec_setRec_self, zeroRecord,
            baseRec, hnz]
      | some r =>
          rw [h] at hnz
          simp only [Option.getD_some] at hnz
          simp [update, h, baseRec, hnz]
  | scalar x =>
      simp only [baseRec, statNumel] at hnz
      cases h : findRec m key with
      | none =>
          rw [h] at hnz
          simp only [Option.getD_none, zeroRecord, zero_add] at hnz
          simp [update, h, findRec_setRec_self, setRec_setRec_self, zeroRecord,
            baseRec, hnz]
      | some r =>
          rw [h] at hnz
          simp only [Option.getD_some] at hnz
          simp [update, h, baseRec, hnz]
  | stensor => simp [isNumeric] at hs
  | other => simp [isNumeric] at hs

theorem foldUpdE_ok (key : String) (l : List Stat) (m : Metrics)
    (hl : l ≠ []) (hnum : ∀ s ∈ l, isNumeric s = true)
    (hpos : ∀ s ∈ l, 0 < statNumel s)
    (hbase : 0 ≤ (baseRec m key).numel) :
    foldUpdE key l m = .ok (setRec m key (l.foldl stepRec (baseRec m key))) := by
  induction l generalizing m with
  | nil => exact absurd rfl hl
  | cons s l' ih =>
      have hs : isNumeric s = true := hnum s (by simp)
      have hp : 0 < statNumel s := hpos s (by simp)
      have hnz : (baseRec m key).numel + statNumel s ≠ 0 :=
        (add_pos_of_nonneg_of_pos hbase hp).ne'
      have hupd := update_numeric_nz key s m hs hnz
      have hstep : foldUpdE key (s :: l') m =
          foldUpdE key l' (setRec m key (stepRec (baseRec m key) s)) := by
        simp only [foldUpdE, hupd]
      rw [hstep]
      cases l' with
      | nil => simp [foldUpdE]
      | cons s' l'' =>
          have hbase' :
              0 ≤ (baseRec (setRec m key (stepRec (baseRec m key) s)) key).numel := by
            rw [baseRec, findRec_setRec_self, Option.getD_some, stepRec_numel _ _ hs]
            have := add_pos_of_nonneg_of_pos hbase hp
            linarith
          rw [ih _ (by simp) (fun t ht => hnum t (by simp [ht]))
            (fun t ht => hpos t (by simp [ht])) hbase']
          rw [setRec_setRec_self, List.foldl_cons]
          congr 2
          simp [baseRec, findRec_setRec_self]

theorem foldl_stepRec_numeric (l : List Stat) (r : Record) (hl : l ≠ [])
    (hnum : ∀ s ∈ l, isNumeric s = true) :
    l.foldl stepRec r =
      ⟨some ((r.total + (l.map statTotal).sum) / (r.numel + (l.map statNumel).sum)),
       r.total + (l.map statTotal).sum, r.numel + (l.map statNumel).sum⟩ := by
  induction l generalizing r with
  | nil => exact absurd rfl hl
  | cons s l' ih =>
      have hs : isNumeric s = true := hnum s (by simp)
      have hstep : stepRec r s =
          ⟨some ((r.total + statTotal s) / (r.numel + statNumel s)),
           r.total + statTotal s, r.numel + statNumel s⟩ := by
        cases s with
        | sdict mv t n => simp [stepRec, statTotal, statNumel]
        | scalar x => simp [stepRec, statTotal, statNumel]
        | stensor => simp [isNumeric] at hs
        | other => simp [isNumeric] at hs
      cases l' with
      | nil => simp [hstep]
      | cons s' l'' =>
          rw [List.foldl_cons, ih (stepRec r s) (by simp)
            (fun t ht => hnum t (by simp [ht])), hstep]
          simp [add_assoc]

/-- C1 as stated is false: the same multiset of updates can raise in one
order and complete in another.  A `{metric: 0, total: 0, numel: 0}` dict
stat — exactly what `mae` produces on an empty tensor — divides by zero
when it is the first update under its key, but merges harmlessly after a
scalar update has made the accumulated `numel` positive, so the accumulator
is not order-independent. -/
theorem claim_C1_counterexample :
    foldUpdE "mae" [Stat.sdict 0 0 0, Stat.scalar 1] [] =
      .error UpdErr.zeroDivision ∧
    foldUpdE "mae" [Stat.scalar 1, Stat.sdict 0 0 0] [] =
      .ok [("mae", ⟨some 1, 1, 1⟩)] ∧
    List.Perm [Stat.sdict 0 0 0, Stat.scalar 1]
      [Stat.scalar 1, Stat.sdict 0 0 0] := by
  refine ⟨?_, ?_, List.Perm.swap (Stat.scalar 1) (Stat.sdict 0 0 0) []⟩
  · norm_num [foldUpdE, update, findRec, setRec, zeroRecord, stepRec]
  · norm_num [foldUpdE, update, findRec, setRec, zeroRecord, stepRec]

/-- C1 (amended): provided every pre-aggregated record carries a positive
`numel` (a scalar update always contributes 1) and the record already
stored under the name has a nonnegative `numel`, folding the updates one
`Evaluator.update` at a time never divides by zero and yields the same
final table — with the `{total, numel, metric}` record holding the grand
sums and `metric = total / numel` — as partitioning the sequence into
arbitrary nonempty sub-groups, pre-summing each sub-group's totals and
numels, and merging the sub-group records in any order.  Without the
positivity proviso a `{total: 0, numel: 0}` record makes some orders raise
`ZeroDivisionError` while others complete. -/
theorem claim_C1_update_grouping_positive_numels
    (key : String) (m : Metrics) (groups : List (List Stat)) (gs : List Stat)
    (h1 : ∀ g ∈ groups, g ≠ [])
    (h2 : ∀ g ∈ groups, ∀ s ∈ g, isNumeric s = true)
    (h3 : ∀ g ∈ groups, ∀ s ∈ g, 0 < statNumel s)
    (hbase : 0 ≤ (baseRec m key).numel)
    (hperm : gs.Perm (groups.map gsum)) :
    foldUpdE key groups.flatten m = foldUpdE key gs m ∧
    (groups ≠ [] →
      foldUpdE key groups.flatten m =
        .ok (setRec m key
          ⟨some (((baseRec m key).total + ((groups.flatten).map statTotal).sum) /
                 ((baseRec m key).numel + ((groups.flatten).map statNumel).sum)),
           (baseRec m key).total + ((groups.flatten).map statTotal).sum,
           (baseRec m key).numel + ((groups.flatten).map statNumel).sum⟩)) := by
  rcases eq_or_ne groups [] with hg | hg
  · subst hg
    have hgs : gs = [] := hperm.eq_nil
    subst hgs
    exact ⟨rfl, fun h => absurd rfl h⟩
  · -- the flattened sequence is nonempty; its stats are numeric and positive
    have hflat_ne : groups.flatten ≠ [] := by
      obtain ⟨g, gt, rfl⟩ := List.exists_cons_of_ne_nil hg
      have hgne : g ≠ [] := h1 g (by simp)
      obtain ⟨a, g', rfl⟩ := List.exists_cons_of_ne_nil hgne
      simp
    have hflat_num : ∀ s ∈ groups.flatten, isNumeric s = true := by
      intro s hs
      rw [List.mem_flatten] at hs
      obtain ⟨g, hgmem, hsg⟩ := hs
      exact h2 g hgmem s hsg
    have hflat_pos : ∀ s ∈ groups.flatten, 0 < statNumel s := by
      intro s hs
      rw [List.mem_flatten] at hs
      obtain ⟨g, hgmem, hsg⟩ := hs
      exact h3 g hgmem s hsg
    have hgs_ne : gs ≠ [] := by
      intro h
      apply hg
      have hlen := hperm.length_eq
      rw [h] at hlen
      simp only [List.length_nil, List.length_map] at hlen
      exact List.length_eq_zero.mp hlen.symm
    have hgs_num : ∀ s ∈ gs, isNumeric s = true := by
      intro s hs
      have : s ∈ groups.map gsum := hperm.subset hs
      rw [List.mem_map] at this
      obtain ⟨g, _, rfl⟩ := this
      rfl
    have hgs_pos : ∀ s ∈ gs, 0 < statNumel s := by
      intro s hs
      have hmem : s ∈ groups.map gsum := hperm.subset hs
      rw [List.mem_map] at hmem
      obtain ⟨g, hgmem, rfl⟩ := hmem
      show 0 < (g.map statNumel).sum
      apply List.sum_pos
      · intro x hx
        rw [List.mem_map] at hx
        obtain ⟨t, htg, rfl⟩ := hx
        exact h3 g hgmem t htg
      · intro hnil
        rw [List.map_eq_nil_iff] at hnil
        exact h1 g hgmem hnil
    -- the two sequences have equal grand totals and numels
    have hsum : ∀ f : Stat → ℚ, (∀ g : List Stat, f (gsum g) = (g.map f).sum) →
        (gs.map f).sum = ((groups.flatten).map f).sum := by
      intro f hf
      have h1' : (gs.map f).sum = ((groups.map gsum).map f).sum :=
        (hperm.map f).sum_eq
      rw [h1', List.map_map]
      have h2' : (groups.map (f ∘ gsum)) = groups.map (fun g => (g.map f).sum) := by
        apply List.map_congr_left
        intro g _
        exact hf g
      rw [h2', List.map_flatten, List.sum_flatten, List.map_map]
      rfl
    have hT : (gs.map statTotal).sum = ((groups.flatten).map statTotal).sum :=
      hsum statTotal (fun g => rfl)
    have hN : (gs.map statNumel).sum = ((groups.flatten).map statNumel).sum :=
      hsum statNumel (fun g => rfl)
    have lhs_eq := foldUpdE_ok key groups.flatten m hflat_ne hflat_num hflat_pos hbase
    have rhs_eq := foldUpdE_ok key gs m hgs_ne hgs_num hgs_pos hbase
    rw [lhs_eq, rhs_eq,
      foldl_stepRec_numeric groups.flatten (baseRec m key) hflat_ne hflat_num,
      foldl_stepRec_numeric gs (baseRec m key) hgs_ne hgs_num, hT, hN]
    exact ⟨rfl, fun _ => rfl⟩

/-- Concrete instance of the amended C1: two sub-groups of positive-numel
updates, merged as group summaries in reversed order, give the same result
as one-at-a-time folding. -/
theorem claim_C1_witness :
    (∀ g ∈ [[Stat.scalar 1, Stat.sdict 5 2 3], [Stat.scalar 4]], g ≠ []) ∧
    (∀ g ∈ [[Stat.scalar 1, Stat.sdict 5 2 3], [Stat.scalar 4]],
      ∀ s ∈ g, isNumeric s = true) ∧
    (∀ g ∈ [[Stat.scalar 1, Stat.sdict 5 2 3], [Stat.scalar 4]],
      ∀ s ∈ g, 0 < statNumel s) ∧
    0 ≤ (baseRec [] "energy_mae").numel ∧
    List.Perm [gsum [Stat.scalar 4], gsum [Stat.scalar 1, Stat.sdict 5 2 3]]
      ([[Stat.scalar 1, Stat.sdict 5 2 3], [Stat.scalar 4]].map gsum) ∧
    foldUpdE "energy_mae"
        ([[Stat.scalar 1, Stat.sdict 5 2 3], [Stat.scalar 4]].flatten) [] =
      foldUpdE "energy_mae"
        [gsum [Stat.scalar 4], gsum [Stat.scalar 1, Stat.sdict 5 2 3]] [] :=
  ⟨by decide, by decide, by decide, by decide,
    List.Perm.swap (gsum [Stat.scalar 1, Stat.sdict 5 2 3]) (gsum [Stat.scalar 4]) [],
    (claim_C1_update_grouping_positive_numels "energy_mae" []
      [[Stat.scalar 1, Stat.sdict 5 2 3], [Stat.scalar 4]]
      [gsum [Stat.scalar 4], gsum [Stat.scalar 1, Stat.sdict 5 2 3]]
      (by decide) (by decide) (by decide) (by decide)
      (List.Perm.swap (gsum [Stat.scalar 1, Stat.sdict 5 2 3])
        (gsum [Stat.scalar 4]) [])).1⟩

/-- C10: updating with a tensor stat raises `NotImplementedError`, and the
error is not atomic — when the key was absent, the zero record
`{metric: None, total: 0, numel: 0}` has already been seeded under it, so
the table is mutated even though the update fails. -/
theorem claim_C10_tensor_update_raises_after_seeding (m : Metrics) (key : String) :
    (update key Stat.stensor m).err = some UpdErr.notImplemented ∧
    (findRec m key = none →
      findRec (update key Stat.stensor m).table key = some zeroRecord ∧
      (update key Stat.stensor m).table ≠ m) := by
  refine ⟨rfl, fun h => ?_⟩
  have htab : (update key Stat.stensor m).table = setRec m key zeroRecord := by
    simp [update, h]
  refine ⟨by rw [htab]; exact findRec_setRec_self m key zeroRecord, ?_⟩
  rw [htab]
  intro heq
  have hfind := findRec_setRec_self m key zeroRecord
  rw [heq, h] at hfind
  exact Option.noConfusion hfind

/-- Concrete instance of C10: a tensor update on the empty table errors and
leaves the zero record seeded. -/
theorem claim_C10_witness :
    findRec ([] : Metrics) "forces_mae" = none ∧
    (update "forces_mae" Stat.stensor []).err = some UpdErr.notImplemented ∧
    findRec (update "forces_mae" Stat.stensor []).table "forces_mae" = some zeroRecord ∧
    (update "forces_mae" Stat.stensor []).table ≠ [] :=
  ⟨rfl, (claim_C10_tensor_update_raises_after_seeding [] "forces_mae").1,
    ((claim_C10_tensor_update_raises_after_seeding [] "forces_mae").2 rfl).1,
    ((claim_C10_tensor_update_raises_after_seeding [] "forces_mae").2 rfl).2⟩

/-- A 3-component Cartesian row vector (one atom position or displacement). -/
structure Vec3 where
  x : ℚ
  y : ℚ
  z : ℚ
deriving DecidableEq, Repr

/-- Componentwise vector subtraction. -/
def vsub (a b : Vec3) : Vec3 := ⟨a.x - b.x, a.y - b.y, a.z - b.z⟩

/-- Componentwise absolute value. -/
def vabs (a : Vec3) : Vec3 := ⟨|a.x|, |a.y|, |a.z|⟩

/-- A 3x3 matrix stored row-major, as numpy does. -/
structure Mat3 where
  r0 : Vec3
  r1 : Vec3
  r2 : Vec3
deriving DecidableEq, Repr

/-- Row-vector times matrix: `v @ M` for a single row `v`, matching
`np.matmul(fractional, cell)` row by row. -/
def rowMul (v : Vec3) (M : Mat3) : Vec3 :=
  ⟨v.x * M.r0.x + v.y * M.r1.x + v.z * M.r2.x,
   v.x * M.r0.y + v.y * M.r1.y + v.z * M.r2.y,
   v.x * M.r0.z + v.y * M.r1.z + v.z * M.r2.z⟩

/-- Determinant of a 3x3 matrix. -/
def det3 (M : Mat3) : ℚ :=
  M.r0.x * (M.r1.y * M.r2.z - M.r1.z * M.r2.y)
  - M.r0.y * (M.r1.x * M.r2.z - M.r1.z * M.r2.x)
  + M.r0.z * (M.r1.x * M.r2.y - M.r1.y * M.r2.x)

/-- Inverse of a 3x3 matrix by the adjugate formula (entries are cofactors
over the determinant); this is the exact-arithmetic counterpart of the
linear solve `np.linalg.solve(cell.T, pos_diff.T).T`, which computes the
unique `f` with `f @ cell = pos_diff` for an invertible cell. -/
def inv3 (M : Mat3) : Mat3 :=
  let d := det3 M
  ⟨⟨(M.r1.y * M.r2.z - M.r1.z * M.r2.y) / d,
    -(M.r0.y * M.r2.z - M.r0.z * M.r2.y) / d,
    (M.r0.y * M.r1.z - M.r0.z * M.r1.y) / d⟩,
   ⟨-(M.r1.x * M.r2.z - M.r1.z * M.r2.x) / d,
    (M.r0.x * M.r2.z - M.r0.z * M.r2.x) / d,
    -(M.r0.x * M.r1.z - M.r0.z * M.r1.x) / d⟩,
   ⟨(M.r1.x * M.r2.y - M.r1.y * M.r2.x) / d,
    -(M.r0.x * M.r2.y - M.r0.y * M.r2.x) / d,
    (M.r0.x * M.r1.y - M.r0.y * M.r1.x) / d⟩⟩

/-- The identity cell `diag(1, 1, 1)`. -/
def idCell : Mat3 := ⟨⟨1, 0, 0⟩, ⟨0, 1, 0⟩, ⟨0, 0, 1⟩⟩

/-- Per-axis periodicity flags, the `pbc` triple. -/
structure B3 where
  x : Bool
  y : Bool
  z : Bool
deriving DecidableEq, Repr

/-- Python float modulo by `1.0`: `q % 1.0 = q - floor(q)`, which lands in
`[0, 1)` in exact arithmetic. -/
def qmod1 (q : ℚ) : ℚ := q - ⌊q⌋

/-- The double modulo `fractional[:, i] %= 1.0` applied twice, as the source
does to guard against floating-point rounding at the boundary; in exact
arithmetic the second application is idempotent. -/
def wrapTwice (q : ℚ) : ℚ := qmod1 (qmod1 q)

/-- The per-axis wrap loop of `min_diff`: each axis whose `pbc` flag is true
is reduced modulo 1 (twice); non-periodic axes are left alone. -/
def applyPbc (pbc : B3) (v : Vec3) : Vec3 :=
  ⟨if pbc.x then wrapTwice v.x else v.x,
   if pbc.y then wrapTwice v.y else v.y,
   if pbc.z then wrapTwice v.z else v.z⟩

/-- The global shift `fractional[fractional > 0.5] -= 1`: every component
strictly greater than 1/2 — on every axis, periodic or not — is shifted
down by 1. -/
def shiftHalf (v : Vec3) : Vec3 :=
  ⟨if 1/2 < v.x then v.x - 1 else v.x,
   if 1/2 < v.y then v.y - 1 else v.y,
   if 1/2 < v.z then v.z - 1 else v.z⟩

/-- Embedding of `min_diff(pred_pos, dft_pos, cell, pbc)`: Cartesian
difference, change to fractional coordinates by solving against the
transposed cell, double modulo on periodic axes, global `> 0.5` shift on all
components, and conversion back to Cartesian by `fractional @ cell`. -/
def min_diff (pred_pos dft_pos : List Vec3) (cell : Mat3) (pbc : B3) : List Vec3 :=
  let pos_diff := List.zipWith vsub pred_pos dft_pos
  let fractional := pos_diff.map (fun d => rowMul d (inv3 cell))
  let wrapped := fractional.map (applyPbc pbc)
  let shifted := wrapped.map shiftHalf
  shifted.map (fun f => rowMul f cell)

theorem inv3_idCell : inv3 idCell = idCell := by
  simp [inv3, idCell, det3]

theorem rowMul_idCell (v : Vec3) : rowMul v idCell = v := by
  simp [rowMul, idCell]

/-- On the identity cell the fractional coordinates are the raw Cartesian
differences, so `min_diff` is the per-row wrap-and-shift map. -/
theorem min_diff_idCell (pred_pos dft_pos : List Vec3) (pbc : B3) :
    min_diff pred_pos dft_pos idCell pbc =
      (List.zipWith vsub pred_pos dft_pos).map
        (fun d => shiftHalf (applyPbc pbc d)) := by
  simp [min_diff, inv3_idCell, rowMul_idCell, List.map_map, Function.comp_def]

theorem qmod1_eq_fract (q : ℚ) : qmod1 q = Int.fract q := rfl

theorem wrapTwice_mem (q : ℚ) : 0 ≤ wrapTwice q ∧ wrapTwice q < 1 := by
  have h2 : wrapTwice q = Int.fract (Int.fract q) := by
    rw [wrapTwice, qmod1_eq_fract, qmod1_eq_fract]
  rw [h2, Int.fract_fract]
  exact ⟨Int.fract_nonneg q, Int.fract_lt_one q⟩

theorem shift_of_wrap_mem (q : ℚ) (h0 : 0 ≤ q) (h1 : q < 1) :
    -(1/2) < (if 1/2 < q then q - 1 else q) ∧ (if 1/2 < q then q - 1 else q) ≤ 1/2 := by
  by_cases h : 1/2 < q
  · simp only [h, if_pos]
    constructor <;> linarith
  · simp only [h, if_neg, if_false]
    push_neg at h
    constructor <;> linarith

theorem applyPbc_allTrue (d : Vec3) :
    applyPbc ⟨true, true, true⟩ d = ⟨wrapTwice d.x, wrapTwice d.y, wrapTwice d.z⟩ := rfl

/-- C2 as stated is false: with the identity cell, fully periodic, and
`pred = [0.5, 0, 0]`, `target = [0, 0, 0]`, the output first component is
exactly `0.5`, which is not in the claimed interval `[-0.5, 0.5)` (the
source shifts only components strictly greater than `0.5`). -/
theorem claim_C2_counterexample :
    min_diff [⟨1/2, 0, 0⟩] [⟨0, 0, 0⟩] idCell ⟨true, true, true⟩ = [⟨1/2, 0, 0⟩] ∧
    ¬ (-(1/2) ≤ (1/2 : ℚ) ∧ (1/2 : ℚ) < 1/2) := by
  constructor
  · rw [min_diff_idCell]
    simp only [List.zipWith_cons_cons, List.zipWith_nil_right, List.map_cons,
      List.map_nil, List.cons.injEq, and_true]
    simp [vsub, applyPbc, wrapTwice, qmod1, shiftHalf]
    norm_num [Int.fract]
  · intro h
    exact absurd h.2 (by norm_num)

/-- C2 (amended): for the fully periodic identity cell every component of
every output displacement of `min_diff` lies in the half-open interval
`(-0.5, 0.5]` — the boundary point `0.5` itself is kept, not wrapped,
because the shift applies only to components strictly greater than `0.5`;
the example `pred = [0.9, 0, 0]`, `target = [0, 0, 0]` still wraps to
`[-0.1, 0, 0]`. -/
theorem claim_C2_fully_periodic_range (pred_pos dft_pos : List Vec3) :
    (∀ v ∈ min_diff pred_pos dft_pos idCell ⟨true, true, true⟩,
      (-(1/2) < v.x ∧ v.x ≤ 1/2) ∧ (-(1/2) < v.y ∧ v.y ≤ 1/2) ∧
      (-(1/2) < v.z ∧ v.z ≤ 1/2)) ∧
    min_diff [⟨9/10, 0, 0⟩] [⟨0, 0, 0⟩] idCell ⟨true, true, true⟩ =
      [⟨-(1/10), 0, 0⟩] := by
  constructor
  · rw [min_diff_idCell]
    intro v hv
    obtain ⟨d, _, rfl⟩ := List.mem_map.mp hv
    have hx := shift_of_wrap_mem (wrapTwice d.x) (wrapTwice_mem d.x).1 (wrapTwice_mem d.x).2
    have hy := shift_of_wrap_mem (wrapTwice d.y) (wrapTwice_mem d.y).1 (wrapTwice_mem d.y).2
    have hz := shift_of_wrap_mem (wrapTwice d.z) (wrapTwice_mem d.z).1 (wrapTwice_mem d.z).2
    rw [applyPbc_allTrue]
    exact ⟨hx, hy, hz⟩
  · rw [min_diff_idCell]
    simp only [List.zipWith_cons_cons, List.zipWith_nil_right, List.map_cons,
      List.map_nil, List.cons.injEq, and_true]
    simp [vsub, applyPbc, wrapTwice, qmod1, shiftHalf]
    norm_num [Int.fract]

/-- Concrete instance of the amended C2: the output row `[-0.1, 0, 0]` of
the `0.9` example indeed lies in `(-0.5, 0.5]` on every component. -/
theorem claim_C2_witness :
    (⟨-(1/10), 0, 0⟩ : Vec3) ∈
      min_diff [⟨9/10, 0, 0⟩] [⟨0, 0, 0⟩] idCell ⟨true, true, true⟩ ∧
    ((-(1/2) < (-(1/10) : ℚ) ∧ (-(1/10) : ℚ) ≤ 1/2) ∧
     (-(1/2) < (0 : ℚ) ∧ (0 : ℚ) ≤ 1/2) ∧
     (-(1/2) < (0 : ℚ) ∧ (0 : ℚ) ≤ 1/2)) := by
  have h := claim_C2_fully_periodic_range [⟨9/10, 0, 0⟩] [⟨0, 0, 0⟩]
  have hmem : (⟨-(1/10), 0, 0⟩ : Vec3) ∈
      min_diff [⟨9/10, 0, 0⟩] [⟨0, 0, 0⟩] idCell ⟨true, true, true⟩ := by
    rw [h.2]
    simp
  exact ⟨hmem, h.1 _ hmem⟩

/-- C3 as stated is false: with the identity cell and no axis periodic,
`pred = [0.9, 0, 0]`, `target = [0, 0, 0]`, the output is `[-0.1, 0, 0]`
rather than the raw displacement `[0.9, 0, 0]` — the `> 0.5` shift is
applied to non-periodic axes too. -/
theorem claim_C3_counterexample :
    min_diff [⟨9/10, 0, 0⟩] [⟨0, 0, 0⟩] idCell ⟨false, false, false⟩ =
      [⟨-(1/10), 0, 0⟩] ∧
    vsub ⟨9/10, 0, 0⟩ ⟨0, 0, 0⟩ = ⟨9/10, 0, 0⟩ ∧
    ([⟨-(1/10), 0, 0⟩] : List Vec3) ≠ [⟨9/10, 0, 0⟩] := by
  refine ⟨?_, by simp [vsub], by intro h; simp at h; exact absurd h (by norm_num)⟩
  rw [min_diff_idCell]
  simp only [List.zipWith_cons_cons, List.zipWith_nil_right, List.map_cons,
    List.map_nil, List.cons.injEq, and_true]
  simp [vsub, applyPbc, shiftHalf]
  norm_num

/-- C3 (amended): on a non-periodic axis `min_diff` skips the modulo wrap,
but the global `> 0.5` shift still applies: with the identity cell the
output component on a non-periodic axis equals the raw displacement
component when it is at most `0.5`, and the raw component minus `1`
otherwise. -/
theorem claim_C3_nonperiodic_axis (pred_pos dft_pos : List Vec3) (pbc : B3) :
    (pbc.x = false →
      (min_diff pred_pos dft_pos idCell pbc).map Vec3.x =
        ((List.zipWith vsub pred_pos dft_pos).map Vec3.x).map
          (fun c => if 1/2 < c then c - 1 else c)) ∧
    (pbc.y = false →
      (min_diff pred_pos dft_pos idCell pbc).map Vec3.y =
        ((List.zipWith vsub pred_pos dft_pos).map Vec3.y).map
          (fun c => if 1/2 < c then c - 1 else c)) ∧
    (pbc.z = false →
      (min_diff pred_pos dft_pos idCell pbc).map Vec3.z =
        ((List.zipWith vsub pred_pos dft_pos).map Vec3.z).map
          (fun c => if 1/2 < c then c - 1 else c)) := by
  rw [min_diff_idCell]
  refine ⟨fun hx => ?_, fun hy => ?_, fun hz => ?_⟩
  · simp only [List.map_map]
    apply List.map_congr_left
    intro d _
    simp [Function.comp_def, shiftHalf, applyPbc, hx]
  · simp only [List.map_map]
    apply List.map_congr_left
    intro d _
    simp [Function.comp_def, shiftHalf, applyPbc, hy]
  · simp only [List.map_map]
    apply List.map_congr_left
    intro d _
    simp [Function.comp_def, shiftHalf, applyPbc, hz]

/-- Concrete instance of the amended C3: on a fully non-periodic call the
`x` components come out shifted by the `> 0.5` rule, not raw. -/
theorem claim_C3_witness :
    (⟨false, false, false⟩ : B3).x = false ∧
    (min_diff [⟨9/10, 0, 0⟩] [⟨0, 0, 0⟩] idCell ⟨false, false, false⟩).map Vec3.x =
      ((List.zipWith vsub [⟨9/10, 0, 0⟩] [⟨0, 0, 0⟩]).map Vec3.x).map
        (fun c => if 1/2 < c then c - 1 else c) :=
  ⟨rfl, (claim_C3_nonperiodic_axis [⟨9/10, 0, 0⟩] [⟨0, 0, 0⟩]
    ⟨false, false, false⟩).1 rfl⟩

/-- A Python value inside the `task_metrics` nesting: either a list of
metric-function names or a string-keyed dict. -/
inductive PyV where
  | vlist (fns : List String)
  | vdict (entries : List (String × PyV))

/-- Dict lookup among `task_metrics`-style entries. -/
def lookupPyV : List (String × PyV) → String → Option PyV
  | [], _ => none
  | (k, v) :: rest, key => if k = key then some v else lookupPyV rest key

/-- The class attribute `Evaluator.task_metrics`, verbatim: note that the
`"is2re"` entry maps `"metrics"` directly to a list, without the
per-property nesting the other two tasks have. -/
def task_metrics : List (String × PyV) :=
  [("s2ef", .vdict
      [("energy", .vdict [("metrics", .vlist ["energy_mae"])]),
       ("forces", .vdict [("metrics", .vlist
          ["forcesx_mae", "forcesy_mae", "forcesz_mae", "forces_mae",
           "forces_cos", "forces_magnitude",
           "energy_force_within_threshold"])])]),
   ("is2rs", .vdict
      [("positions", .vdict [("metrics", .vlist
          ["average_distance_within_threshold", "positions_mae",
           "positions_mse"])])]),
   ("is2re", .vdict
      [("metrics", .vlist ["energy_mae", "energy_mse",
          "energy_within_threshold"])])]

/-- A prediction or target batch: a Python dict mapping a property name to a
1-D tensor of rationals (the shape the energy-style metrics read). -/
abbrev Batch := List (String × List ℚ)

/-- Dict lookup in a batch. -/
def lookupQ : Batch → String → Option (List ℚ)
  | [], _ => none
  | (k, v) :: rest, key => if k = key then some v else lookupQ rest key

/-- Exceptions the evaluation loop can raise. -/
inductive EvalErr where
  | typeError
  | nameError
  | keyError
  | notImplementedError
  | zeroDivisionError
deriving DecidableEq, Repr

/-- Whether `pat` is an initial segment of `s`. -/
def leadsWith : List Char → List Char → Bool
  | [], _ => true
  | _ :: _, [] => false
  | a :: as, b :: bs => a = b && leadsWith as bs

/-- Whether `pat` occurs contiguously somewhere in `s`. -/
def hasSub (pat : List Char) : List Char → Bool
  | [] => pat.isEmpty
  | c :: rest => leadsWith pat (c :: rest) || hasSub pat rest

/-- Python's substring test `a in b` on strings. -/
def pyIn (a b : String) : Bool := hasSub a.data b.data

/-- The metric-name rule of `Evaluator.eval`:
`f"{target_property}_{fn}" if target_property not in fn else fn`. -/
def metricName (prop fn : String) : String :=
  if pyIn prop fn then fn else prop ++ "_" ++ fn

/-- Embedding of the module-level `mae(prediction, target, key)`: mean,
sum and count of the absolute errors on the keyed tensors. -/
def mae_metric (p t : Batch) (key : String) : Except EvalErr Stat :=
  match lookupQ t key, lookupQ p key with
  | some ts, some ps =>
      let err := List.zipWith (fun a b => |a - b|) ts ps
      .ok (.sdict (err.sum / (err.length : ℚ)) err.sum (err.length : ℚ))
  | _, _ => .error .keyError

/-- Embedding of the module-level `mse(prediction, target, key)`. -/
def mse_metric (p t : Batch) (key : String) : Except EvalErr Stat :=
  match lookupQ t key, lookupQ p key with
  | some ts, some ps =>
      let err := List.zipWith (fun a b => (a - b) ^ 2) ts ps
      .ok (.sdict (err.sum / (err.length : ℚ)) err.sum (err.length : ℚ))
  | _, _ => .error .keyError

/-- Embedding of `energy_within_threshold(prediction, target, key)`: count
of systems whose absolute energy error is strictly below `0.02`, over the
number of target energies. -/
def energy_within_threshold (p t : Batch) (_key : String) : Except EvalErr Stat :=
  match lookupQ t "energy", lookupQ p "energy" with
  | some ts, some ps =>
      let err := List.zipWith (fun a b => |a - b|) ts ps
      let success := err.countP (fun e => decide (e < 1/50))
      let total := ts.length
      .ok (.sdict ((success : ℚ) / (total : ℚ)) (success : ℚ) (total : ℚ))
  | _, _ => .error .keyError

/-- The metric functions `eval(fn)` can resolve, restricted to the ones the
theorems below actually dispatch; a name outside this table (in particular
`"energy_mae"` and `"energy_mse"`, which the module never defines) yields
`none`, standing for Python's `NameError`. -/
def moduleFns : String → Option (Batch → Batch → String → Except EvalErr Stat)
  | "mae" => some mae_metric
  | "mse" => some mse_metric
  | "energy_within_threshold" => some energy_within_threshold
  | _ => none

/-- Result of running (part of) the evaluation loop: the metrics dict after
all in-place mutations, plus the exception raised, if any. -/
structure EOut where
  table : Metrics
  err : Option EvalErr
deriving DecidableEq

/-- The inner loop of `Evaluator.eval` over the metric-function names of one
target property: resolve the name, call the function, and merge its result
into the mutable metrics dict under the computed metric name. -/
def runFns (prop : String) (fns : List String) (p t : Batch) (m : Metrics) : EOut :=
  match fns with
  | [] => ⟨m, none⟩
  | fn :: rest =>
      match moduleFns fn with
      | none => ⟨m, some .nameError⟩
      | some f =>
          match f p t prop with
          | .error e => ⟨m, some e⟩
          | .ok stat =>
              let u := update (metricName prop fn) stat m
              match u.err with
              | some .notImplemented => ⟨u.table, some .notImplementedError⟩
              | some .zeroDivision => ⟨u.table, some .zeroDivisionError⟩
              | none => runFns prop rest p t u.table

/-- The outer loop of `Evaluator.eval` over `target_metrics` entries: each
key is subscripted with `"metrics"`; when its value is a plain list (as in
the `"is2re"` entry) the subscript raises `TypeError`; iterating a dict
value would run over its keys. -/
def runProps (entries : List (String × PyV)) (p t : Batch) (m : Metrics) : EOut :=
  match entries with
  | [] => ⟨m, none⟩
  | (prop, v) :: rest =>
      match v with
      | .vlist _ => ⟨m, some .typeError⟩
      | .vdict d =>
          match lookupPyV d "metrics" with
          | some (.vlist fns) =>
              let o := runFns prop fns p t m
              match o.err with
              | some e => ⟨o.table, some e⟩
              | none => runProps rest p t o.table
          | some (.vdict d') =>
              let o := runFns prop (d'.map Prod.fst) p t m
              match o.err with
              | some e => ⟨o.table, some e⟩
              | none => runProps rest p t o.table
          | none => ⟨m, some .keyError⟩

/-- Embedding of `Evaluator(task).eval(prediction, target, prev_metrics)`
for a task name looked up in `task_metrics` (an unknown task with no
`eval_metrics` leaves `target_metrics = None`, which the loop cannot
iterate: `TypeError`). -/
def evaluatorEval (task : String) (p t : Batch) (prev : Metrics) : EOut :=
  match lookupPyV task_metrics task with
  | some (.vdict entries) => runProps entries p t prev
  | some (.vlist _) => ⟨prev, some .typeError⟩
  | none => ⟨prev, some .typeError⟩

/-- The dict created once for the default argument `prev_metrics={}` of
`Evaluator.eval`: it starts empty and is shared by every call that omits
the argument, on every instance. -/
def evalDefaultState0 : Metrics := []

theorem update_keys_nil (key : String) (stat : Stat) :
    ((update key stat []).table).map Prod.fst = [key] := by
  cases stat with
  | sdict mv t n =>
      simp only [update, findRec, setRec, stepRec, zeroRecord]
      split_ifs <;> simp
  | scalar x =>
      simp only [update, findRec, setRec, stepRec, zeroRecord]
      split_ifs <;> simp
  | stensor => simp [update, findRec, setRec, zeroRecord]
  | other => simp [update, findRec, setRec, zeroRecord]

/-- C9: a record produced by one (property, function) entry of the eval
loop is stored under the function's name verbatim when the property occurs
as a substring of the function name, and under `"{property}_{function}"`
otherwise. -/
theorem claim_C9_metric_name_rule (prop fn : String) (p t : Batch)
    (h : (runProps [(prop, PyV.vdict [("metrics", PyV.vlist [fn])])] p t []).err = none) :
    ((runProps [(prop, PyV.vdict [("metrics", PyV.vlist [fn])])] p t []).table).map
        Prod.fst = [metricName prop fn] ∧
    (pyIn prop fn = true → metricName prop fn = fn) ∧
    (pyIn prop fn = false → metricName prop fn = prop ++ "_" ++ fn) := by
  refine ⟨?_, fun hin => by simp [metricName, hin], fun hout => by simp [metricName, hout]⟩
  cases hmf : moduleFns fn with
  | none =>
      exfalso
      simp [runProps, runFns, lookupPyV, hmf] at h
  | some f =>
      cases hres : f p t prop with
      | error e =>
          exfalso
          simp [runProps, runFns, lookupPyV, hmf, hres] at h
      | ok stat =>
          cases stat with
          | stensor =>
              exfalso
              simp [runProps, runFns, lookupPyV, hmf, hres, update] at h
          | sdict mv tt nn =>
              by_cases hz : nn = 0
              · exfalso
                simp [runProps, runFns, lookupPyV, hmf, hres, update,
                  setRec, findRec, stepRec, zeroRecord, hz] at h
              · simp [runProps, runFns, lookupPyV, hmf, hres, update,
                  setRec, findRec, stepRec, zeroRecord, hz]
          | scalar x =>
              simp [runProps, runFns, lookupPyV, hmf, hres, update_keys_nil, update,
                setRec, findRec, stepRec, zeroRecord]
          | other =>
              simp [runProps, runFns, lookupPyV, hmf, hres, update_keys_nil, update,
                setRec, findRec, stepRec, zeroRecord]

theorem pyIn_energy_within : pyIn "energy" "energy_within_threshold" = true := by decide

theorem pyIn_energy_mae : pyIn "energy" "mae" = false := by decide

theorem metricName_energy_mae : metricName "energy" "mae" = "energy_mae" := by decide

/-- Concrete instance of C9: dispatching `mae` under property `energy`
succeeds and stores the record under the prefixed key `energy_mae`
(as `"energy"` is not a substring of `"mae"`). -/
theorem claim_C9_witness :
    (runProps [("energy", PyV.vdict [("metrics", PyV.vlist ["mae"])])]
        [("energy", [1])] [("energy", [0])] []).err = none ∧
    ((runProps [("energy", PyV.vdict [("metrics", PyV.vlist ["mae"])])]
        [("energy", [1])] [("energy", [0])] []).table).map Prod.fst =
      [metricName "energy" "mae"] ∧
    metricName "energy" "mae" = "energy" ++ "_" ++ "mae" := by
  have herr : (runProps [("energy", PyV.vdict [("metrics", PyV.vlist ["mae"])])]
      [("energy", [1])] [("energy", [0])] []).err = none := by
    norm_num [runProps, runFns, lookupPyV, moduleFns, mae_metric, lookupQ, update,
      setRec, findRec, stepRec, zeroRecord]
  have h := claim_C9_metric_name_rule "energy" "mae" [("energy", [1])]
    [("energy", [0])] herr
  exact ⟨herr, h.1, h.2.2 pyIn_energy_mae⟩

/-- C5 as claimed fails at runtime: the `"is2re"` entry of `task_metrics`
maps `"metrics"` straight to a list, so the eval loop's subscript
`target_metrics[target_property]["metrics"]` indexes a list with a string
and raises `TypeError` before computing any metric, for every prediction
and target batch; the metrics dict is left untouched. -/
theorem claim_C5_is2re_eval_raises_type_error (p t : Batch) (prev : Metrics) :
    (evaluatorEval "is2re" p t prev).err = some EvalErr.typeError ∧
    (evaluatorEval "is2re" p t prev).table = prev := by
  constructor <;> rfl

/-- The metrics spec `{"energy": {"metrics": ["mae"]}}` used to exercise the
shared default argument of `Evaluator.eval`. -/
def c4Spec : List (String × PyV) := [("energy", PyV.vdict [("metrics", PyV.vlist ["mae"])])]

/-- A prediction batch with one energy. -/
def c4Pred : Batch := [("energy", [1])]

/-- A target batch with one energy. -/
def c4Target : Batch := [("energy", [0])]

/-- The first `eval` call that omits `prev_metrics`: it reads and mutates
the shared default dict, which starts empty. -/
def c4FirstCall : EOut := runProps c4Spec c4Pred c4Target evalDefaultState0

/-- The second `eval` call that omits `prev_metrics`: the default dict is
the same object the first call mutated, so it starts from the first call's
table. -/
def c4SecondCall : EOut := runProps c4Spec c4Pred c4Target c4FirstCall.table

/-- C4 is false on the code: `prev_metrics={}` is a mutable default created
once, and `update` mutates it in place, so two identical `eval` calls that
omit the prior-metrics argument return different tables — the second call
accumulates on top of the first call's results instead of starting fresh. -/
theorem claim_C4_shared_default_accumulates :
    c4FirstCall.err = none ∧ c4SecondCall.err = none ∧
    c4FirstCall.table ≠ c4SecondCall.table := by
  have h1 : c4FirstCall =
      ⟨[("energy_mae", ⟨some 1, 1, 1⟩)], none⟩ := by
    norm_num [c4FirstCall, c4Spec, c4Pred, c4Target, evalDefaultState0, runProps,
      runFns, lookupPyV, moduleFns, mae_metric, lookupQ, update, setRec,
      findRec, stepRec, zeroRecord, metricName_energy_mae]
  have h2 : c4SecondCall =
      ⟨[("energy_mae", ⟨some 1, 2, 2⟩)], none⟩ := by
    rw [c4SecondCall, h1]
    norm_num [c4Spec, c4Pred, c4Target, runProps,
      runFns, lookupPyV, moduleFns, mae_metric, lookupQ, update, setRec,
      findRec, stepRec, zeroRecord, metricName_energy_mae]
  rw [h1, h2]
  refine ⟨rfl, rfl, fun h => ?_⟩
  simp only [List.cons.injEq, Prod.mk.injEq, Record.mk.injEq,
    Option.some.injEq] at h
  norm_num at h

/-- Maximum entry of one row of absolute force errors. -/
def vmax (v : Vec3) : ℚ := max v.x (max v.y v.z)

/-- `torch.max` over all entries of a slice of force-error rows: `none` for
the empty slice, where torch raises. -/
def sliceMax : List Vec3 → Option ℚ
  | [] => none
  | v :: rest =>
      match sliceMax rest with
      | none => some (vmax v)
      | some m => some (max (vmax v) m)

/-- Exceptions `energy_force_within_threshold` can raise: the count asserts,
`torch.max` on an empty slice, an out-of-range energy index, and the final
division by a zero structure count. -/
inductive EfwtErr where
  | countMismatch
  | emptyReduction
  | indexError
  | zeroDivision
deriving DecidableEq, Repr

/-- The prediction dict read by `energy_force_within_threshold`. -/
structure EFPred where
  energy : List ℚ
  forces : List Vec3

/-- The target dict read by `energy_force_within_threshold`. -/
structure EFTarget where
  natoms : List ℕ
  energy : List ℚ
  forces : List Vec3

/-- The per-structure loop of `energy_force_within_threshold`: walk the
`natoms` list, check the energy error first (Python's `and` short-circuits,
so the force slice is only reduced when the energy check passes), count the
structures passing both strict thresholds, and advance the force offset. -/
def goEFWT : List ℕ → List ℚ → List Vec3 → Except EfwtErr ℕ
  | [], _, _ => .ok 0
  | _ :: _, [], _ => .error .indexError
  | n :: ns, e :: es, fs =>
      if e < 1/50 then
        match sliceMax (fs.take n) with
        | none => .error .emptyReduction
        | some mx =>
            match goEFWT ns es (fs.drop n) with
            | .error err => .error err
            | .ok c => .ok (if mx < 3/100 then c + 1 else c)
      else
        goEFWT ns es (fs.drop n)

/-- Embedding of `energy_force_within_threshold(prediction, target)`: the
two count asserts, elementwise absolute errors, the per-structure loop with
thresholds `e_thresh = 0.02` and `f_thresh = 0.03`, and the final
`{metric: success/total, total: success, numel: total}` record. -/
def energy_force_within_threshold (p : EFPred) (t : EFTarget) : Except EfwtErr Stat :=
  if t.natoms.sum ≠ p.forces.length then .error .countMismatch
  else if t.natoms.length ≠ p.energy.length then .error .countMismatch
  else
    let errF := List.zipWith (fun a b => vabs (vsub a b)) t.forces p.forces
    let errE := List.zipWith (fun a b => |a - b|) t.energy p.energy
    match goEFWT t.natoms errE errF with
    | .error e => .error e
    | .ok succ =>
        if t.natoms.length = 0 then .error .zeroDivision
        else .ok (.sdict ((succ : ℚ) / (t.natoms.length : ℚ)) (succ : ℚ)
          (t.natoms.length : ℚ))

/-- The claim's per-structure success condition, stated by index: energy
error strictly below 0.02 and every component of that structure's force
error slice strictly below 0.03. -/
def structSuccess (natoms : List ℕ) (errE : List ℚ) (errF : List Vec3) (i : ℕ) : Bool :=
  decide (errE.getD i 0 < 1/50) &&
  ((errF.drop ((natoms.take i).sum)).take (natoms.getD i 0)).all
    (fun v => decide (v.x < 3/100) && decide (v.y < 3/100) && decide (v.z < 3/100))

/-- Number of structures satisfying the claim's success condition. -/
def countSuccess (natoms : List ℕ) (errE : List ℚ) (errF : List Vec3) : ℕ :=
  (List.range natoms.length).countP (structSuccess natoms errE errF)

theorem vmax_lt_iff (v : Vec3) (c : ℚ) :
    vmax v < c ↔ v.x < c ∧ v.y < c ∧ v.z < c := by
  simp [vmax, max_lt_iff, and_assoc]

theorem sliceMax_ne_nil (l : List Vec3) (h : l ≠ []) : ∃ m, sliceMax l = some m := by
  cases l with
  | nil => exact absurd rfl h
  | cons v rest =>
      cases hr : sliceMax rest <;> simp [sliceMax, hr]

theorem sliceMax_lt_iff (l : List Vec3) (m c : ℚ) (h : sliceMax l = some m) :
    (m < c ↔ l.all
      (fun v => decide (v.x < c) && decide (v.y < c) && decide (v.z < c)) = true) := by
  induction l generalizing m with
  | nil => simp [sliceMax] at h
  | cons v rest ih =>
      cases hr : sliceMax rest with
      | none =>
          have hrest : rest = [] := by
            cases rest with
            | nil => rfl
            | cons w ws =>
                obtain ⟨m', hm'⟩ := sliceMax_ne_nil (w :: ws) (by simp)
                rw [hm'] at hr
                exact Option.noConfusion hr
          subst hrest
          rw [sliceMax, hr] at h
          simp only [Option.some.injEq] at h
          subst h
          simp [vmax_lt_iff, and_assoc]
      | some m' =>
          rw [sliceMax, hr] at h
          simp only [Option.some.injEq] at h
          subst h
          rw [List.all_cons]
          simp only [max_lt_iff, vmax_lt_iff, ih m' hr, Bool.and_eq_true,
            decide_eq_true_eq, and_assoc]

theorem structSuccess_succ (n : ℕ) (ns : List ℕ) (e : ℚ) (es : List ℚ)
    (fs : List Vec3) (i : ℕ) :
    structSuccess (n :: ns) (e :: es) fs (i + 1) =
      structSuccess ns es (fs.drop n) i := by
  simp only [structSuccess, List.getD_cons_succ, List.take_succ_cons,
    List.sum_cons, List.drop_drop]

theorem countSuccess_cons (n : ℕ) (ns : List ℕ) (e : ℚ) (es : List ℚ)
    (fs : List Vec3) :
    countSuccess (n :: ns) (e :: es) fs =
      (if structSuccess (n :: ns) (e :: es) fs 0 then 1 else 0) +
        countSuccess ns es (fs.drop n) := by
  simp only [countSuccess, List.length_cons, List.range_succ_eq_map,
    List.countP_cons, List.countP_map]
  have hcomp : ((structSuccess (n :: ns) (e :: es) fs) ∘ Nat.succ) =
      structSuccess ns es (fs.drop n) := by
    funext i
    simp [Function.comp_def, structSuccess_succ]
  rw [hcomp]
  by_cases h0 : structSuccess (n :: ns) (e :: es) fs 0 <;> simp [h0, Nat.add_comm]

theorem goEFWT_eq_count (ns : List ℕ) (es : List ℚ) (fs : List Vec3)
    (hpos : ∀ n ∈ ns, 0 < n) (hlen : es.length = ns.length)
    (hflen : ns.sum ≤ fs.length) :
    goEFWT ns es fs = .ok (countSuccess ns es fs) := by
  induction ns generalizing es fs with
  | nil =>
      cases es with
      | nil => simp [goEFWT, countSuccess, List.range_zero]
      | cons e es' => simp at hlen
  | cons n ns' ih =>
      cases es with
      | nil => simp at hlen
      | cons e es' =>
          have hn : 0 < n := hpos n (by simp)
          have hfs_len : n ≤ fs.length := by
            simp only [List.sum_cons] at hflen
            omega
          have hfs_ne : fs.take n ≠ [] := by
            intro hnil
            have hlt := congrArg List.length hnil
            rw [List.length_take] at hlt
            simp only [List.length_nil] at hlt
            omega
          obtain ⟨mx, hmx⟩ := sliceMax_ne_nil (fs.take n) hfs_ne
          have hrec := ih es' (fs.drop n)
            (fun k hk => hpos k (by simp [hk]))
            (by simp at hlen; omega)
            (by
              rw [List.length_drop]
              simp only [List.sum_cons] at hflen
              omega)
          have hiff := sliceMax_lt_iff (fs.take n) mx (3/100) hmx
          rw [countSuccess_cons]
          by_cases hE : e < 1/50
          · have hS0 : structSuccess (n :: ns') (e :: es') fs 0 =
                decide (mx < 3/100) := by
              simp only [structSuccess, List.getD_cons_zero, List.take_zero,
                List.sum_nil, List.drop_zero]
              rw [decide_eq_true hE, Bool.true_and]
              by_cases hm : mx < 3/100
              · rw [decide_eq_true hm]
                exact hiff.mp hm
              · rw [decide_eq_false hm, Bool.eq_false_iff]
                intro hall
                exact hm (hiff.mpr hall)
            simp only [goEFWT, hE, if_true, hmx, hrec]
            rw [hS0]
            by_cases hm : mx < 3/100
            · simp [hm, Nat.add_comm]
            · simp [hm]
          · have hS0 : structSuccess (n :: ns') (e :: es') fs 0 = false := by
              simp only [structSuccess, List.getD_cons_zero]
              rw [decide_eq_false hE, Bool.false_and]
            simp only [goEFWT, hE, if_false]
            rw [hrec, hS0]
            simp

/-- C8 as stated is false on an edge case: with `natoms = [0]` (counts
consistent: zero force rows, one energy) and a zero energy error, the
energy check passes and the code then reduces `max` over an empty force
slice, which raises instead of returning the claimed record. -/
theorem claim_C8_counterexample :
    (⟨[0], [0], []⟩ : EFTarget).natoms.sum = (⟨[0], []⟩ : EFPred).forces.length ∧
    (⟨[0], [0], []⟩ : EFTarget).natoms.length = (⟨[0], []⟩ : EFPred).energy.length ∧
    energy_force_within_threshold ⟨[0], []⟩ ⟨[0], [0], []⟩ =
      .error .emptyReduction := by
  refine ⟨rfl, rfl, ?_⟩
  have h0 : |(0 : ℚ) - 0| < 1/50 := by norm_num
  simp [energy_force_within_threshold, goEFWT, sliceMax, h0]

/-- C8 (amended): when prediction and target shapes agree and every
structure has at least one atom, `energy_force_within_threshold` fails with
the count-mismatch assertion exactly when `sum(target.natoms)` differs from
the number of prediction force rows or `len(target.natoms)` differs from
the number of prediction energies; when the counts are consistent it
returns `{metric: success/total, total: success, numel: total}` where
structure `i` succeeds iff its absolute energy error is strictly below
`0.02` and every entry of its force-error slice is strictly below `0.03`.
The claim's original wording also promised the record for structures with
zero atoms, where the code instead fails on the empty `max` reduction. -/
theorem claim_C8_efwt_spec (p : EFPred) (t : EFTarget)
    (hfe : t.forces.length = p.forces.length)
    (hee : t.energy.length = p.energy.length)
    (hne : t.natoms ≠ [])
    (hpos : ∀ n ∈ t.natoms, 0 < n) :
    (energy_force_within_threshold p t = .error .countMismatch ↔
      (t.natoms.sum ≠ p.forces.length ∨ t.natoms.length ≠ p.energy.length)) ∧
    (t.natoms.sum = p.forces.length → t.natoms.length = p.energy.length →
      energy_force_within_threshold p t =
        .ok (.sdict
          ((countSuccess t.natoms
              (List.zipWith (fun a b => |a - b|) t.energy p.energy)
              (List.zipWith (fun a b => vabs (vsub a b)) t.forces p.forces) : ℚ) /
            (t.natoms.length : ℚ))
          (countSuccess t.natoms
              (List.zipWith (fun a b => |a - b|) t.energy p.energy)
              (List.zipWith (fun a b => vabs (vsub a b)) t.forces p.forces) : ℚ)
          (t.natoms.length : ℚ))) := by
  by_cases h1 : t.natoms.sum = p.forces.length
  · by_cases h2 : t.natoms.length = p.energy.length
    · have hok : energy_force_within_threshold p t =
          .ok (.sdict
            ((countSuccess t.natoms
                (List.zipWith (fun a b => |a - b|) t.energy p.energy)
                (List.zipWith (fun a b => vabs (vsub a b)) t.forces p.forces) : ℚ) /
              (t.natoms.length : ℚ))
            (countSuccess t.natoms
                (List.zipWith (fun a b => |a - b|) t.energy p.energy)
                (List.zipWith (fun a b => vabs (vsub a b)) t.forces p.forces) : ℚ)
            (t.natoms.length : ℚ)) := by
        have hElen : (List.zipWith (fun a b => |a - b|) t.energy p.energy).length =
            t.natoms.length := by
          rw [List.length_zipWith, hee, h2]
          simp
        have hFlen : t.natoms.sum ≤
            (List.zipWith (fun a b => vabs (vsub a b)) t.forces p.forces).length := by
          rw [List.length_zipWith, hfe, ← h1]
          simp
        have hgo := goEFWT_eq_count t.natoms
          (List.zipWith (fun a b => |a - b|) t.energy p.energy)
          (List.zipWith (fun a b => vabs (vsub a b)) t.forces p.forces)
          hpos hElen hFlen
        have hlen0 : t.natoms.length ≠ 0 := by
          intro h
          exact hne (List.length_eq_zero.mp h)
        simp only [energy_force_within_threshold]
        rw [if_neg (by simp [h1]), if_neg (by simp [h2])]
        simp only [hgo]
        rw [if_neg hlen0]
      refine ⟨?_, fun _ _ => hok⟩
      constructor
      · intro herr
        rw [hok] at herr
        exact Except.noConfusion herr
      · intro hcon
        rcases hcon with h | h
        · exact absurd h1 h
        · exact absurd h2 h
    · have herr : energy_force_within_threshold p t = .error .countMismatch := by
        simp [energy_force_within_threshold, h1, h2]
      refine ⟨⟨fun _ => Or.inr h2, fun _ => herr⟩, fun _ hc => absurd hc h2⟩
  · have herr : energy_force_within_threshold p t = .error .countMismatch := by
      simp [energy_force_within_threshold, h1]
    refine ⟨⟨fun _ => Or.inl h1, fun _ => herr⟩, fun hc _ => absurd hc h1⟩

/-- The claim's example prediction: 2 energies and 5 force rows. -/
def c8wPred : EFPred :=
  ⟨[0, 1], [⟨0, 0, 0⟩, ⟨0, 0, 0⟩, ⟨0, 0, 0⟩, ⟨0, 0, 0⟩, ⟨0, 0, 0⟩]⟩

/-- The claim's example target: `natoms = [2, 3]`, matching shapes. -/
def c8wTarget : EFTarget :=
  ⟨[2, 3], [0, 0], [⟨0, 0, 0⟩, ⟨0, 0, 0⟩, ⟨0, 0, 0⟩, ⟨0, 0, 0⟩, ⟨0, 0, 0⟩]⟩

/-- Concrete instance of the amended C8 at the claim's own example
`natoms = [2, 3]`, 5 force rows, 2 energies: the counts are consistent and
the success-rate record is returned. -/
theorem claim_C8_witness :
    (c8wTarget.forces.length = c8wPred.forces.length ∧
     c8wTarget.energy.length = c8wPred.energy.length ∧
     c8wTarget.natoms ≠ [] ∧ (∀ n ∈ c8wTarget.natoms, 0 < n) ∧
     c8wTarget.natoms.sum = c8wPred.forces.length ∧
     c8wTarget.natoms.length = c8wPred.energy.length) ∧
    energy_force_within_threshold c8wPred c8wTarget =
      .ok (.sdict
        ((countSuccess c8wTarget.natoms
            (List.zipWith (fun a b => |a - b|) c8wTarget.energy c8wPred.energy)
            (List.zipWith (fun a b => vabs (vsub a b)) c8wTarget.forces
              c8wPred.forces) : ℚ) /
          (c8wTarget.natoms.length : ℚ))
        (countSuccess c8wTarget.natoms
            (List.zipWith (fun a b => |a - b|) c8wTarget.energy c8wPred.energy)
            (List.zipWith (fun a b => vabs (vsub a b)) c8wTarget.forces
              c8wPred.forces) : ℚ)
        (c8wTarget.natoms.length : ℚ)) :=
  ⟨⟨rfl, rfl, by decide, by decide, rfl, rfl⟩,
    (claim_C8_efwt_spec c8wPred c8wTarget rfl rfl (by decide) (by decide)).2 rfl rfl⟩

/-- Mean or standard deviation of a `Normalizer`: a scalar or a
per-channel 1-D tensor. -/
inductive MS where
  | scalar (q : ℚ)
  | vec (l : List ℚ)

/-- Embedding of the `Normalizer` module's two buffers. -/
structure NormalizerM where
  mean : MS
  std : MS

/-- Broadcast subtraction `tensor - p`. -/
def bsub (t : List ℚ) : MS → List ℚ
  | .scalar m => t.map (fun a => a - m)
  | .vec ms => List.zipWith (fun a m => a - m) t ms

/-- Broadcast division `tensor / p`. -/
def bdiv (t : List ℚ) : MS → List ℚ
  | .scalar s => t.map (fun a => a / s)
  | .vec ss => List.zipWith (fun a s => a / s) t ss

/-- Broadcast multiplication `tensor * p`. -/
def bmul (t : List ℚ) : MS → List ℚ
  | .scalar s => t.map (fun a => a * s)
  | .vec ss => List.zipWith (fun a s => a * s) t ss

/-- Broadcast addition `tensor + p`. -/
def badd (t : List ℚ) : MS → List ℚ
  | .scalar m => t.map (fun a => a + m)
  | .vec ms => List.zipWith (fun a m => a + m) t ms

/-- Embedding of `Normalizer.norm`: `(tensor - mean) / std`. -/
def NormalizerM.norm (n : NormalizerM) (tensor : List ℚ) : List ℚ :=
  bdiv (bsub tensor n.mean) n.std

/-- Embedding of `Normalizer.denorm`: `normed * std + mean`. -/
def NormalizerM.denorm (n : NormalizerM) (normed : List ℚ) : List ℚ :=
  badd (bmul normed n.std) n.mean

/-- The invariant `std != 0`, componentwise for tensors. -/
def stdNonzero : MS → Prop
  | .scalar q => q ≠ 0
  | .vec l => ∀ q ∈ l, q ≠ 0

/-- Shape compatibility of a buffer with a tensor of the given length
(a scalar broadcasts to anything). -/
def shapeOk : MS → ℕ → Prop
  | .scalar _, _ => True
  | .vec l, len => l.length = len

theorem roundtrip_ss (m s : ℚ) (hs : s ≠ 0) (x : List ℚ) :
    NormalizerM.denorm ⟨.scalar m, .scalar s⟩
      (NormalizerM.norm ⟨.scalar m, .scalar s⟩ x) = x := by
  simp only [NormalizerM.norm, NormalizerM.denorm, bsub, bdiv, bmul, badd,
    List.map_map]
  conv_rhs => rw [← List.map_id x]
  apply List.map_congr_left
  intro a _
  simp only [Function.comp_def, id_eq]
  field_simp

theorem roundtrip_sv (m : ℚ) (ss : List ℚ) (hs : ∀ q ∈ ss, q ≠ 0)
    (x : List ℚ) (hlen : ss.length = x.length) :
    NormalizerM.denorm ⟨.scalar m, .vec ss⟩
      (NormalizerM.norm ⟨.scalar m, .vec ss⟩ x) = x := by
  simp only [NormalizerM.norm, NormalizerM.denorm, bsub, bdiv, bmul, badd]
  induction x generalizing ss with
  | nil => simp
  | cons a x' ih =>
      cases ss with
      | nil => simp at hlen
      | cons s ss' =>
          have hs0 : s ≠ 0 := hs s (by simp)
          simp only [List.map_cons, List.zipWith_cons_cons, List.cons.injEq]
          constructor
          · field_simp
          · exact ih ss' (fun q hq => hs q (by simp [hq])) (by simpa using hlen)

theorem roundtrip_vs (ms : List ℚ) (s : ℚ) (hs : s ≠ 0)
    (x : List ℚ) (hlen : ms.length = x.length) :
    NormalizerM.denorm ⟨.vec ms, .scalar s⟩
      (NormalizerM.norm ⟨.vec ms, .scalar s⟩ x) = x := by
  simp only [NormalizerM.norm, NormalizerM.denorm, bsub, bdiv, bmul, badd]
  induction x generalizing ms with
  | nil => simp
  | cons a x' ih =>
      cases ms with
      | nil => simp at hlen
      | cons m ms' =>
          simp only [List.zipWith_cons_cons, List.map_cons, List.cons.injEq]
          constructor
          · field_simp
          · exact ih ms' (by simpa using hlen)

theorem roundtrip_vv (ms ss : List ℚ) (hs : ∀ q ∈ ss, q ≠ 0)
    (x : List ℚ) (hml : ms.length = x.length) (hsl : ss.length = x.length) :
    NormalizerM.denorm ⟨.vec ms, .vec ss⟩
      (NormalizerM.norm ⟨.vec ms, .vec ss⟩ x) = x := by
  simp only [NormalizerM.norm, NormalizerM.denorm, bsub, bdiv, bmul, badd]
  induction x generalizing ms ss with
  | nil => simp
  | cons a x' ih =>
      cases ms with
      | nil => simp at hml
      | cons m ms' =>
          cases ss with
          | nil => simp at hsl
          | cons s ss' =>
              have hs0 : s ≠ 0 := hs s (by simp)
              simp only [List.zipWith_cons_cons, List.cons.injEq]
              constructor
              · field_simp
              · exact ih ms' ss' (fun q hq => hs q (by simp [hq]))
                  (by simpa using hml) (by simpa using hsl)

/-- C6: for every `Normalizer` whose `std` is nonzero (scalar or
per-channel) and every shape-compatible input, `denorm (norm x) = x`
exactly, over exact arithmetic. -/
theorem claim_C6_norm_denorm_roundtrip (n : NormalizerM) (x : List ℚ)
    (hstd : stdNonzero n.std) (hm : shapeOk n.mean x.length)
    (hs : shapeOk n.std x.length) :
    n.denorm (n.norm x) = x := by
  obtain ⟨mean, std⟩ := n
  cases mean with
  | scalar m =>
      cases std with
      | scalar s => exact roundtrip_ss m s hstd x
      | vec ss => exact roundtrip_sv m ss hstd x hs
  | vec ms =>
      cases std with
      | scalar s => exact roundtrip_vs ms s hstd x hm
      | vec ss => exact roundtrip_vv ms ss hstd x hm hs

/-- Concrete instance of C6: per-channel mean `[1, 2]` and std `[2, 4]`
round-trip the tensor `[5, 6]`. -/
theorem claim_C6_witness :
    stdNonzero (MS.vec [2, 4]) ∧
    shapeOk (MS.vec [1, 2]) ([5, 6] : List ℚ).length ∧
    shapeOk (MS.vec [2, 4]) ([5, 6] : List ℚ).length ∧
    NormalizerM.denorm ⟨MS.vec [1, 2], MS.vec [2, 4]⟩
      (NormalizerM.norm ⟨MS.vec [1, 2], MS.vec [2, 4]⟩ [5, 6]) = [5, 6] := by
  have hsz : stdNonzero (MS.vec [2, 4]) := by
    intro q hq
    rcases List.mem_cons.mp hq with h | h
    · subst h
      norm_num
    · rcases List.mem_cons.mp h with h2 | h2
      · subst h2
        norm_num
      · simp at h2
  refine ⟨hsz, rfl, rfl, ?_⟩
  exact claim_C6_norm_denorm_roundtrip ⟨MS.vec [1, 2], MS.vec [2, 4]⟩ [5, 6] hsz rfl rfl

/-- A value stored in a built normalizer: either a plain number or the
standard deviation `torch.std(tensor, dim=0)` of a sample, kept symbolic
because its exact value (a square root) plays no role in any claim. -/
inductive NVal where
  | lit (q : ℚ)
  | sampleStd (l : List ℚ)

/-- `torch.mean(tensor, dim=0)` for a 1-D sample. -/
def listMean (l : List ℚ) : ℚ := l.sum / (l.length : ℚ)

/-- Exceptions `create_normalizer` can raise on the paths after the file
branch: the state-dict path calls `.to(device)` on the `None` that
`Normalizer().load_state_dict(...)` returns, and the final guard raises
`ValueError` when mean or std is still `None`. -/
inductive CNErr where
  | attrErrorNone
  | valueError
deriving DecidableEq, Repr

/-- The normalizer `create_normalizer` would build. -/
structure CNOut where
  mean : NVal
  std : NVal

/-- Embedding of `create_normalizer(file=None, state_dict, tensor, mean,
std)`: the tensor branch fires only when `tensor`, `mean` and `std` are all
given (its condition is `tensor is not None and mean is not None and std is
not None`), the elif converts explicit mean/std, and the final guard raises
`ValueError` when either is still `None`. -/
def create_normalizer (state_dict : Option (ℚ × ℚ)) (tensor : Option (List ℚ))
    (mean0 std0 : Option ℚ) : Except CNErr CNOut :=
  match state_dict with
  | some _ => .error .attrErrorNone
  | none =>
      let pair : Option NVal × Option NVal :=
        match tensor, mean0, std0 with
        | some l, some _, some _ => (some (.lit (listMean l)), some (.sampleStd l))
        | _, _, _ =>
            match mean0, std0 with
            | some m, some s => (some (.lit m), some (.lit s))
            | _, _ => (mean0.map .lit, std0.map .lit)
      match pair with
      | (some m, some s) => .ok ⟨m, s⟩
      | _ => .error .valueError

/-- C7 is false on the code: `create_normalizer` given only a sample tensor
(no file, no state dict, no explicit mean/std) raises `ValueError` instead
of computing mean/std from the sample, because the tensor branch also
requires `mean` and `std` to be non-None; the explicit mean/std path works. -/
theorem claim_C7_tensor_only_raises :
    create_normalizer none (some [1, 2, 3]) none none =
      .error CNErr.valueError ∧
    (∀ m s : ℚ, create_normalizer none none (some m) (some s) =
      .ok ⟨.lit m, .lit s⟩) :=
  ⟨rfl, fun _ _ => rfl⟩
